import Mathlib

/-!
Verification development for the pandapower excerpt:
`pandapower/make_objective.py` (OPF objective builder `_make_objective`) and
`pandapower/control/controller/const_control.py` (`ConstControl` value injector).

The Python source is shallowly embedded: the numerical arrays become `List`s of
rationals, scipy sparse matrices become a shape-carrying structure with an
entry function (assignment has overwrite semantics, as in the source), and the
pandas tables mutated by the controller become explicit function-valued stores.
The branch-admittance magnitudes `abs(Ybus[f, t])` are produced by the external
`makeYbus` routine (pypower_extensions, outside this excerpt), so they enter the
embedding as an opaque input `Yabs : Nat -> Nat -> Rat`.
-/

namespace Pandapower

/-- Bus-type code of a reference (slack) bus (`pypower.idx_bus.REF`). -/
def REF : Int := 3

/-- One row of the `branch` array: only the `F_BUS` and `T_BUS` columns are
read by `_make_objective` (as integers, via `int(... .real)`). -/
structure BranchRow where
  fBus : Nat
  tBus : Nat
deriving DecidableEq

/-- A scipy sparse matrix: a shape together with its entries.  Entry assignment
`M[r, c] = v` (overwrite semantics) is `setEntry`. -/
structure SparseMat where
  rows : Nat
  cols : Nat
  entry : Nat → Nat → Rat

/-- `M[r, c] = v`: overwrite a single entry, keeping the shape. -/
def setEntry (M : SparseMat) (r c : Nat) (v : Rat) : SparseMat :=
  { M with entry := fun i j => if i = r ∧ j = c then v else M.entry i j }

/-- `sparse.csr_matrix((r, c))` / `sparse.lil_matrix((r, c))`: all-zero matrix. -/
def zeroMat (r c : Nat) : SparseMat :=
  { rows := r, cols := c, entry := fun _ _ => 0 }

@[simp]
theorem setEntry_rows (M : SparseMat) (r c : Nat) (v : Rat) :
    (setEntry M r c v).rows = M.rows := rfl

@[simp]
theorem setEntry_cols (M : SparseMat) (r c : Nat) (v : Rat) :
    (setEntry M r c v).cols = M.cols := rfl

theorem setEntry_entry (M : SparseMat) (r c : Nat) (v : Rat) (i j : Nat) :
    (setEntry M r c v).entry i j = if i = r ∧ j = c then v else M.entry i j := rfl

/-- The internal case `ppci`: a bundle of named arrays.  Only the columns that
`_make_objective` actually reads are modelled: `bus` is its `BUS_TYPE` column,
`branch` its `F_BUS`/`T_BUS` columns, and of `gen` only the row count is used
(`len(ppci["gen"])`).  The artifact fields are `Option`s: `none` means the key
is absent from the case dictionary. -/
structure PPCI where
  bus : List Int
  branch : List BranchRow
  gen : Nat
  gencost : Option (List (List Rat)) := none
  H : Option SparseMat := none
  Cw : Option (List Rat) := none
  N : Option SparseMat := none
  A : Option SparseMat := none
  l : Option (List Rat) := none
  u : Option (List Rat) := none
  fparm : Option (List (List Rat)) := none

/-- `np.nan_to_num` on a scalar, with `none` playing NaN. -/
def nanToNum : Option Rat → Rat
  | none => 0
  | some q => q

/-- The cost-attribute data of one element category, as read from the lookup
table and the `cost_per_kw` column of the in-service element table: a list of
(internal generator-row index, coefficient) pairs, the coefficient being `none`
when the attribute is NaN.  A category whose lookup or cost column is absent
contributes the empty list. -/
abbrev CostCat := List (Nat × Option Rat)

/-- Lines 69-77: `gen_costs = np.ones(len(ppci["gen"]))` followed by the four
category blocks `gen_costs[idx[...]] = ....cost_per_kw`, applied in source
order (ext_grid, gen, sgen_controllable, load_controllable). -/
def genCostsVec (ng : Nat) (cats : List CostCat) : List (Option Rat) :=
  cats.foldl (fun v cat => cat.foldl (fun v pr => v.set pr.1 pr.2) v)
    (List.replicate ng (some 1))

/-- Line 89 template: `np.array([1, 0, 0, 2, 0, 0, 1, 1])` (reference rows). -/
def refTemplate : List Rat := [1, 0, 0, 2, 0, 0, 1, 1]

/-- Line 90 template: `np.array([1, 0, 0, 2, 0, 0, 1, 0])` (remaining rows). -/
def pvTemplate : List Rat := [1, 0, 0, 2, 0, 0, 1, 0]

/-- Lines 88-91 (and identically 96-99): build `ppci["gencost"]`, an `ng` by
8 array whose first `nref` rows start from `refTemplate`, the rest from
`pvTemplate`, after which column 7 is overwritten with
`np.nan_to_num(gen_costs * 1e3)`. -/
def mkGencost (ng nref : Nat) (genCosts : List (Option Rat)) : List (List Rat) :=
  (List.range ng).map fun r =>
    (if r < nref then refTemplate else pvTemplate).set 7
      (nanToNum (Option.map (fun q => q * 1000) (genCosts.getD r none)))

/-- Spec-side description (for C4) of "that row's per-unit cost coefficient":
the value of the last category entry writing row `r`, taken in category order,
defaulting to 1 for a row covered by no cost-attribute category; `none` is a
NaN coefficient. -/
def rowCoeff (cats : List CostCat) (r : Nat) : Option Rat :=
  cats.foldl (fun a cat => cat.foldl (fun a pr => if pr.1 = r then pr.2 else a) a)
    (some 1)

/-- Line 120: `eps = 0`. -/
def epsZ : Rat := 0

/-- Lines 131-143: the per-branch assembly loop filling `H` and `A`.  The
running loop index `i` is threaded explicitly; `Yabs f t` stands for
`abs(Ybus[bus_f, bus_t])`. -/
def minlossLoop (nb nl dim : Nat) (lambda_opf : Rat) (Yabs : Nat → Nat → Rat) :
    List BranchRow → Nat → SparseMat × SparseMat → SparseMat × SparseMat
  | [], _, HA => HA
  | br :: rest, i, (H, A) =>
    let H := setEntry H (dim - 2 * nl + i) (dim - 2 * nl + i)
                (Yabs br.fBus br.tBus * lambda_opf)
    let A := setEntry A i (nb + br.fBus) 1
    let A := setEntry A i (nb + br.tBus) (-1)
    let A := setEntry A i (dim - 2 * nl + i) 1
    let H := setEntry H (dim - nl + i) (dim - nl + i) (Yabs br.fBus br.tBus)
    let A := setEntry A (nl + i) br.fBus 1
    let A := setEntry A (nl + i) br.tBus (-1)
    let A := setEntry A (nl + i) (dim - nl + i) 1
    minlossLoop nb nl dim lambda_opf Yabs rest (i + 1) (H, A)

/-- Lines 146-148: `N = sparse.lil_matrix((dim, dim))` followed by
`for i in range(dim - 2*nl, dim): N[i, i] = 1.0`. -/
def mkNmat (dim nl : Nat) : SparseMat :=
  (List.range' (dim - 2 * nl) (dim - (dim - 2 * nl))).foldl
    (fun M i => setEntry M i i 1) (zeroMat dim dim)

/-- Lines 94-168: the `"linear_minloss"` branch.  `ng`, `nref` and the scaled
cost vector were computed before the branch, so they are passed in. -/
def minlossUpdate (p : PPCI) (ng nref : Nat) (genCosts : List (Option Rat))
    (lambda_opf : Rat) (Yabs : Nat → Nat → Rat) : PPCI :=
  let nb := p.bus.length
  let nl := p.branch.length
  let dim := 2 * nb + 2 * ng + 2 * nl
  let HA := minlossLoop nb nl dim lambda_opf Yabs p.branch 0
              (zeroMat dim dim, zeroMat (2 * nl) dim)
  { p with
    gencost := some (mkGencost ng nref genCosts),
    H := some HA.1,
    Cw := some (List.replicate dim 0),
    N := some (mkNmat dim nl),
    A := some HA.2,
    l := some (List.replicate (2 * nl) (1 * epsZ)),
    u := some (List.replicate (2 * nl) (1 * -epsZ)),
    fparm := some (List.replicate dim [1, 0, 0, 1]) }

/-- `_make_objective(ppci, net, is_elems, cost_function, lambda_opf)`.  The
per-category cost data extracted from `net`/`is_elems` is `cats`; the branch
admittance magnitudes produced by the external `makeYbus` are `Yabs`.  The two
mode tests are sequential `if` statements in the source, mirrored here. -/
def make_objective (ppci : PPCI) (cats : List CostCat) (cost_function : String)
    (lambda_opf : Rat) (Yabs : Nat → Nat → Rat) : PPCI :=
  let genCosts := genCostsVec ppci.gen cats
  let ng := ppci.gen
  let nref := ppci.bus.countP (fun b => decide (b = REF))
  let p1 :=
    if cost_function = "linear" then
      { ppci with gencost := some (mkGencost ng nref genCosts) }
    else ppci
  if cost_function = "linear_minloss" then
    minlossUpdate p1 ng nref genCosts lambda_opf Yabs
  else p1

/-!
### ConstControl (`const_control.py`)

The pandas tables a controller writes to are modelled as two function-valued
stores: `cells e v i` is the cell of element table `e`, column `v`, row label
`i` (numeric columns, so cells hold `Value`s; a scalar in the ordinary case),
and `objAttrs e i a` is attribute `a` of the object stored in the `"object"`
column of table `e` at row `i`.
-/

/-- A value fetched from a data source or held in a table cell: a scalar or a
one-dimensional collection. -/
inductive Value where
  | scalar (q : Rat)
  | vector (l : List Rat)
deriving DecidableEq

/-- Extract the scalar a numeric-table cell holds.  Tracked cells of numeric
element columns are scalars; a non-scalar cell is outside the numeric model
and reads as 0. -/
def asScalar : Value → Rat
  | .scalar q => q
  | .vector _ => 0

/-- The mutable network model surface the controller touches. -/
structure Net where
  cells : String → String → Nat → Value
  objAttrs : String → Nat → String → Value

/-- `net[e].at[i, v] = q` / one elementwise `.loc` write. -/
def setCell (n : Net) (e v : String) (i : Nat) (q : Value) : Net :=
  { n with cells := fun e' v' i' =>
      if e' = e ∧ v' = v ∧ i' = i then q else n.cells e' v' i' }

/-- `setattr(net[e]["object"].at[i], a, q)`. -/
def setObjAttr (n : Net) (e : String) (i : Nat) (a : String) (q : Value) : Net :=
  { n with objAttrs := fun e' i' a' =>
      if e' = e ∧ i' = i ∧ a' = a then q else n.objAttrs e' i' a' }

/-- The profile data source: `get_time_step_value(time_step, profile_name,
scale_factor)`, returning `none` for the absent marker (Python `None`). -/
structure DataSource where
  get : Nat → String → Rat → Option Value

/-- The state of a `ConstControl` instance.  `element_index` is either a
Python `int` (`Sum.inl`) or a list of labels (`Sum.inr`); `varName` is the
source's `variable` attribute (a Lean keyword); `write` is the strategy string
chosen by `__init__`. -/
structure ConstControl where
  data_source : Option DataSource
  element_index : Sum Nat (List Nat)
  element : String
  varName : String
  values : Option Value
  profile_name : String
  scale_factor : Rat
  applied : Bool
  write : String
  object_attribute : Option String

/-- `ConstControl.__init__` (lines 62-102): stores the configuration, clears
`values`, sets `applied = False`, and pre-selects the write strategy: an
`"object.<attr>"` variable selects `"object"` (and records `<attr>`; the
source indexes `variable.split(".")[1]`, here `Option`-valued), an integer
index selects `"single_index"`, anything else `"loc"` (the `"all_index"`
branch is commented out in the source). -/
def constControlInit (element varName : String) (element_index : Sum Nat (List Nat))
    (profile_name : String) (data_source : Option DataSource)
    (scale_factor : Rat) : ConstControl :=
  { data_source := data_source
    element_index := element_index
    element := element
    varName := varName
    values := none
    profile_name := profile_name
    scale_factor := scale_factor
    applied := false
    write :=
      if varName.startsWith "object" then "object"
      else
        match element_index with
        | .inl _ => "single_index"
        | .inr _ => "loc"
    object_attribute :=
      if varName.startsWith "object" then (varName.splitOn ".").get? 1
      else none }

/-- `net[self.element][self.variable].loc[self.element_index]` (line 153):
read back the current values at the tracked indices. -/
def readCurrent (n : Net) (e v : String) : Sum Nat (List Nat) → Value
  | .inl i => n.cells e v i
  | .inr l => .vector (l.map fun i => asScalar (n.cells e v i))

/-- `_write_to_single_index` (line 173-174): `net[element].at[index, variable]
= values`.  A missing `values` or a list-shaped index is not a numeric-cell
write and leaves the table unchanged. -/
def writeToSingleIndex (c : ConstControl) (n : Net) : Net :=
  match c.element_index, c.values with
  | .inl i, some v => setCell n c.element c.varName i v
  | _, _ => n

/-- `_write_to_all_index` (lines 176-177): `net[element].loc[:, variable] =
values` (dead code for constructor-built controllers; scalar broadcast). -/
def writeToAllIndex (c : ConstControl) (n : Net) : Net :=
  match c.values with
  | some (.scalar q) =>
    { n with cells := fun e' v' i' =>
        if e' = c.element ∧ v' = c.varName then .scalar q else n.cells e' v' i' }
  | _ => n

/-- `_write_with_loc` (lines 179-180): `net[element].loc[index, variable] =
values`; a scalar broadcasts over the label list, a collection is written
elementwise. -/
def writeWithLoc (c : ConstControl) (n : Net) : Net :=
  match c.element_index, c.values with
  | .inl i, some v => setCell n c.element c.varName i v
  | .inr l, some (.scalar q) =>
    l.foldl (fun n i => setCell n c.element c.varName i (.scalar q)) n
  | .inr l, some (.vector vs) =>
    (List.zip l vs).foldl
      (fun n pr => setCell n c.element c.varName pr.1 (.scalar pr.2)) n
  | _, none => n

/-- `_write_to_object_attribute` (lines 182-187): with an iterable index of
more than one label, zip indices with values and set the attribute on each
embedded object; otherwise set it on the single object.  Indexing the object
column with a list key, or zipping a non-iterable value, is rejected by the
underlying table machinery and performs no write. -/
def writeToObjectAttribute (c : ConstControl) (n : Net) : Net :=
  match c.element_index with
  | .inr l =>
    if l.length > 1 then
      match c.values with
      | some (.vector vs) =>
        (List.zip l vs).foldl
          (fun n pr => setObjAttr n c.element pr.1 (c.object_attribute.getD "")
            (.scalar pr.2)) n
      | _ => n
    else n
  | .inl i =>
    match c.values with
    | some v => setObjAttr n c.element i (c.object_attribute.getD "") v
    | none => n

/-- `write_to_net` (lines 126-142): dispatch on the strategy string; an
unrecognized strategy raises `NotImplementedError`. -/
def write_to_net (c : ConstControl) (n : Net) : Except String Net :=
  if c.write = "single_index" then Except.ok (writeToSingleIndex c n)
  else if c.write = "all_index" then Except.ok (writeToAllIndex c n)
  else if c.write = "loc" then Except.ok (writeWithLoc c n)
  else if c.write = "object" then Except.ok (writeToObjectAttribute c n)
  else Except.error
    "ConstControl: self.write must be one of [single_index, all_index, loc, object]"

/-- `time_step` (lines 144-159): clear the applied flag, fetch values (from
the data source, or re-read the current net values when no source is
configured), and, if the fetched value is not the absent marker, write to the
net. -/
def time_step (c : ConstControl) (n : Net) (t : Nat) : ConstControl × Except String Net :=
  let c := { c with applied := false }
  let vals : Option Value :=
    match c.data_source with
    | none => some (readCurrent n c.element c.varName c.element_index)
    | some ds => ds.get t c.profile_name c.scale_factor
  let c := { c with values := vals }
  if vals.isSome then (c, write_to_net c n) else (c, Except.ok n)

/-- `is_converged` (lines 161-165): return the applied flag. -/
def is_converged (c : ConstControl) : Bool := c.applied

/-- `control_step` (lines 167-171): set the applied flag. -/
def control_step (c : ConstControl) : ConstControl := { c with applied := true }

/-- The operations a surrounding simulation loop may invoke on a controller
between constructions. -/
inductive COp where
  | timeStep (t : Nat)
  | controlStep
  | writeToNet

/-- Apply one operation to a controller/net pair.  A raised write error aborts
the write, leaving the net as it was. -/
def copApply (s : ConstControl × Net) (op : COp) : ConstControl × Net :=
  match op with
  | .timeStep t =>
    let r := time_step s.1 s.2 t
    (r.1, match r.2 with | Except.ok n' => n' | Except.error _ => s.2)
  | .controlStep => (control_step s.1, s.2)
  | .writeToNet =>
    (s.1, match write_to_net s.1 s.2 with
          | Except.ok n' => n'
          | Except.error _ => s.2)

/-- Run a sequence of operations. -/
def runOps (s : ConstControl × Net) (ops : List COp) : ConstControl × Net :=
  ops.foldl copApply s

/-- Spec-side description of the applied flag (for C7): `time_step` resets it,
`control_step` sets it, and no other operation changes it. -/
def appliedSpec (b : Bool) (ops : List COp) : Bool :=
  ops.foldl (fun b op =>
    match op with
    | .timeStep _ => false
    | .controlStep => true
    | .writeToNet => b) b

/-! ### Shape lemmas for the minloss artifacts -/

theorem minlossLoop_shape (nb nl dim : Nat) (w : Rat) (Y : Nat → Nat → Rat) :
    ∀ (bs : List BranchRow) (i : Nat) (HA : SparseMat × SparseMat),
      (minlossLoop nb nl dim w Y bs i HA).1.rows = HA.1.rows ∧
      (minlossLoop nb nl dim w Y bs i HA).1.cols = HA.1.cols ∧
      (minlossLoop nb nl dim w Y bs i HA).2.rows = HA.2.rows ∧
      (minlossLoop nb nl dim w Y bs i HA).2.cols = HA.2.cols := by
  intro bs
  induction bs with
  | nil => intro i HA; exact ⟨rfl, rfl, rfl, rfl⟩
  | cons br rest ih =>
    intro i HA
    obtain ⟨h1, h2, h3, h4⟩ := ih (i + 1)
      (setEntry (setEntry HA.1 (dim - 2 * nl + i) (dim - 2 * nl + i)
          (Y br.fBus br.tBus * w)) (dim - nl + i) (dim - nl + i) (Y br.fBus br.tBus),
        setEntry (setEntry (setEntry (setEntry (setEntry (setEntry HA.2
          i (nb + br.fBus) 1) i (nb + br.tBus) (-1)) i (dim - 2 * nl + i) 1)
          (nl + i) br.fBus 1) (nl + i) br.tBus (-1)) (nl + i) (dim - nl + i) 1)
    exact ⟨h1, h2, h3, h4⟩

theorem foldl_setEntry_diag_shape :
    ∀ (l : List Nat) (M : SparseMat),
      ((l.foldl (fun M i => setEntry M i i 1) M).rows = M.rows ∧
       (l.foldl (fun M i => setEntry M i i 1) M).cols = M.cols) := by
  intro l
  induction l with
  | nil => intro M; exact ⟨rfl, rfl⟩
  | cons a t ih =>
    intro M
    obtain ⟨h1, h2⟩ := ih (setEntry M a a 1)
    exact ⟨h1, h2⟩

theorem mkNmat_shape (dim nl : Nat) :
    (mkNmat dim nl).rows = dim ∧ (mkNmat dim nl).cols = dim := by
  unfold mkNmat
  exact foldl_setEntry_diag_shape _ _

/-- C1: In `"linear_minloss"` mode with `nb` bus rows, `ng` generator rows and
`nl` branch rows and `dim = 2*nb + 2*ng + 2*nl`, the produced quadratic matrix
`H` and transform matrix `N` are square of size `dim`, the constraint matrix
`A` has `2*nl` rows and `dim` columns, and the bound vectors `l`, `u` have
length `2*nl` with `l[i] = -u[i]` and both bounds equal to zero. -/
theorem C1_minloss_shapes (p : PPCI) (cats : List CostCat) (w : Rat)
    (Y : Nat → Nat → Rat) :
    let nb := p.bus.length
    let ng := p.gen
    let nl := p.branch.length
    let dim := 2 * nb + 2 * ng + 2 * nl
    let q := make_objective p cats "linear_minloss" w Y
    q.H.map SparseMat.rows = some dim ∧ q.H.map SparseMat.cols = some dim ∧
    q.N.map SparseMat.rows = some dim ∧ q.N.map SparseMat.cols = some dim ∧
    q.A.map SparseMat.rows = some (2 * nl) ∧ q.A.map SparseMat.cols = some dim ∧
    q.l.map List.length = some (2 * nl) ∧ q.u.map List.length = some (2 * nl) ∧
    ∀ i, i < 2 * nl → ∃ li ui,
      q.l.bind (fun L => L.get? i) = some li ∧
      q.u.bind (fun L => L.get? i) = some ui ∧ li = -ui ∧ li = 0 := by
  intro nb ng nl dim q
  have hq : q = minlossUpdate p ng (p.bus.countP (fun b => decide (b = REF)))
      (genCostsVec p.gen cats) w Y := by
    simp [q, make_objective]
  obtain ⟨l1, l2, l3, l4⟩ := minlossLoop_shape nb nl dim w Y p.branch 0
    (zeroMat dim dim, zeroMat (2 * nl) dim)
  obtain ⟨n1, n2⟩ := mkNmat_shape dim nl
  rw [hq]
  refine ⟨?_, ?_, ?_, ?_, ?_, ?_, ?_, ?_, ?_⟩
  · simpa [minlossUpdate, zeroMat] using l1
  · simpa [minlossUpdate, zeroMat] using l2
  · simpa [minlossUpdate] using n1
  · simpa [minlossUpdate] using n2
  · simpa [minlossUpdate, zeroMat] using l3
  · simpa [minlossUpdate, zeroMat] using l4
  · simp [minlossUpdate]
  · simp [minlossUpdate]
  · intro i hi
    refine ⟨0, 0, ?_, ?_, by norm_num, rfl⟩
    · simp [minlossUpdate, epsZ, List.get?_eq_getElem?, hi]
    · simp [minlossUpdate, epsZ, List.get?_eq_getElem?, hi]

/-- Witness for C1 on a concrete 2-bus, 1-branch, 1-generator case. -/
theorem C1_minloss_shapes_witness :
    ∃ li ui,
      (make_objective { bus := [3, 1], branch := [⟨0, 1⟩], gen := 1 } []
          "linear_minloss" 2 (fun _ _ => 5)).l.bind (fun L => L.get? 1) = some li ∧
      (make_objective { bus := [3, 1], branch := [⟨0, 1⟩], gen := 1 } []
          "linear_minloss" 2 (fun _ _ => 5)).u.bind (fun L => L.get? 1) = some ui ∧
      li = -ui ∧ li = 0 :=
  (C1_minloss_shapes { bus := [3, 1], branch := [⟨0, 1⟩], gen := 1 } [] 2
    (fun _ _ => 5)).2.2.2.2.2.2.2.2 1 (by decide)

/-- C5: The builder's write-set on the case is exactly determined by the mode:
the `bus`, `branch` and `gen` inputs are never modified; in `"linear"` mode
only the cost table is written (the seven loss-artifact fields keep their
input values); in `"linear_minloss"` mode the cost table and all seven loss
artifacts are written; for any other mode string the case is returned
unchanged and no error is raised. -/
theorem C5_mode_write_set (p : PPCI) (cats : List CostCat) (mode : String)
    (w : Rat) (Y : Nat → Nat → Rat) :
    let q := make_objective p cats mode w Y
    (q.bus = p.bus ∧ q.branch = p.branch ∧ q.gen = p.gen) ∧
    (mode = "linear" →
      q.gencost.isSome ∧ q.H = p.H ∧ q.Cw = p.Cw ∧ q.N = p.N ∧ q.A = p.A ∧
      q.l = p.l ∧ q.u = p.u ∧ q.fparm = p.fparm) ∧
    (mode = "linear_minloss" →
      q.gencost.isSome ∧ q.H.isSome ∧ q.Cw.isSome ∧ q.N.isSome ∧
      q.A.isSome ∧ q.l.isSome ∧ q.u.isSome ∧ q.fparm.isSome) ∧
    (mode ≠ "linear" → mode ≠ "linear_minloss" → q = p) := by
  intro q
  by_cases h1 : mode = "linear"
  · subst h1
    have h2 : ("linear" : String) ≠ "linear_minloss" := by decide
    refine ⟨?_, fun _ => ?_, fun h => absurd h h2, fun h _ => absurd rfl h⟩
    · simp [q, make_objective, h2]
    · simp [q, make_objective, h2]
  · by_cases h2 : mode = "linear_minloss"
    · subst h2
      have h1 : ("linear_minloss" : String) ≠ "linear" := by decide
      refine ⟨?_, fun h => absurd h h1, fun _ => ?_, fun _ h => absurd rfl h⟩
      · simp [q, make_objective, h1, minlossUpdate]
      · simp [q, make_objective, h1, minlossUpdate]
    · have hqp : q = p := by simp [q, make_objective, h1, h2]
      exact ⟨by simp [hqp], fun h => absurd h h1, fun h => absurd h h2,
        fun _ _ => hqp⟩

/-- Witness for C5: an unrecognized mode string returns the case unchanged. -/
theorem C5_mode_write_set_witness :
    make_objective { bus := [3], branch := [], gen := 1 } [] "quadratic" 1
      (fun _ _ => 0) = { bus := [3], branch := [], gen := 1 } :=
  (C5_mode_write_set { bus := [3], branch := [], gen := 1 } [] "quadratic" 1
    (fun _ _ => 0)).2.2.2 (by decide) (by decide)

/-- C9: The builder is idempotent given identical inputs: applying it a second
time to its own output (same cost data, mode, loss weight and admittance)
returns the same case. -/
theorem C9_idempotent (p : PPCI) (cats : List CostCat) (mode : String)
    (w : Rat) (Y : Nat → Nat → Rat) :
    make_objective (make_objective p cats mode w Y) cats mode w Y =
      make_objective p cats mode w Y := by
  by_cases h1 : mode = "linear"
  · subst h1
    have h2 : ("linear" : String) ≠ "linear_minloss" := by decide
    cases p
    simp [make_objective, h2]
  · by_cases h2 : mode = "linear_minloss"
    · subst h2
      have h1 : ("linear_minloss" : String) ≠ "linear" := by decide
      cases p
      simp [make_objective, h1, minlossUpdate]
    · simp [make_objective, h1, h2]

/-! ### Lemmas about the cost vector and the cost table -/

theorem getD_set (v : List (Option Rat)) (i r : Nat) (x : Option Rat)
    (hr : r < v.length) :
    (v.set i x).getD r none = if i = r then x else v.getD r none := by
  by_cases h : i = r
  · subst h
    simp [List.getD, List.getElem?_set, hr]
  · simp [List.getD, List.getElem?_set, h]

theorem catFold_length (cat : CostCat) :
    ∀ (v : List (Option Rat)),
      (cat.foldl (fun v pr => v.set pr.1 pr.2) v).length = v.length := by
  induction cat with
  | nil => intro v; rfl
  | cons pr rest ih =>
    intro v
    simpa using ih (v.set pr.1 pr.2)

theorem catFold_getD (cat : CostCat) :
    ∀ (v : List (Option Rat)) (r : Nat), r < v.length →
      (cat.foldl (fun v pr => v.set pr.1 pr.2) v).getD r none =
        cat.foldl (fun a pr => if pr.1 = r then pr.2 else a) (v.getD r none) := by
  induction cat with
  | nil => intro v r _; rfl
  | cons pr rest ih =>
    intro v r hr
    have hr' : r < (v.set pr.1 pr.2).length := by simpa using hr
    calc ((pr :: rest).foldl (fun v pr => v.set pr.1 pr.2) v).getD r none
        = (rest.foldl (fun v pr => v.set pr.1 pr.2) (v.set pr.1 pr.2)).getD r none := rfl
      _ = rest.foldl (fun a pr => if pr.1 = r then pr.2 else a)
            ((v.set pr.1 pr.2).getD r none) := ih _ r hr'
      _ = rest.foldl (fun a pr => if pr.1 = r then pr.2 else a)
            (if pr.1 = r then pr.2 else v.getD r none) := by rw [getD_set v _ r _ hr]

theorem genCostsVec_length (ng : Nat) (cats : List CostCat) :
    (genCostsVec ng cats).length = ng := by
  unfold genCostsVec
  suffices h : ∀ (cs : List CostCat) (v : List (Option Rat)),
      (cs.foldl (fun v cat => cat.foldl (fun v pr => v.set pr.1 pr.2) v) v).length
        = v.length by
    simpa using h cats (List.replicate ng (some 1))
  intro cs
  induction cs with
  | nil => intro v; rfl
  | cons cat rest ih =>
    intro v
    calc ((cat :: rest).foldl (fun v cat =>
            cat.foldl (fun v pr => v.set pr.1 pr.2) v) v).length
        = (rest.foldl (fun v cat => cat.foldl (fun v pr => v.set pr.1 pr.2) v)
            (cat.foldl (fun v pr => v.set pr.1 pr.2) v)).length := rfl
      _ = (cat.foldl (fun v pr => v.set pr.1 pr.2) v).length := ih _
      _ = v.length := catFold_length cat v

/-- The array-mutation form of the cost vector agrees with the spec-side
last-write-wins description `rowCoeff`: position `r` of `gen_costs` holds the
last category value written there, defaulting to the initial 1. -/
theorem genCostsVec_getD (ng : Nat) (cats : List CostCat) (r : Nat)
    (hr : r < ng) :
    (genCostsVec ng cats).getD r none = rowCoeff cats r := by
  unfold genCostsVec rowCoeff
  suffices h : ∀ (cs : List CostCat) (v : List (Option Rat)), r < v.length →
      (cs.foldl (fun v cat => cat.foldl (fun v pr => v.set pr.1 pr.2) v) v).getD r none
        = cs.foldl (fun a cat => cat.foldl (fun a pr => if pr.1 = r then pr.2 else a) a)
            (v.getD r none) by
    have := h cats (List.replicate ng (some 1)) (by simpa using hr)
    rw [this]
    congr 1
    simp [List.getD, hr]
  intro cs
  induction cs with
  | nil => intro v _; rfl
  | cons cat rest ih =>
    intro v hv
    have hv' : r < (cat.foldl (fun v pr => v.set pr.1 pr.2) v).length := by
      rw [catFold_length]; exact hv
    calc ((cat :: rest).foldl (fun v cat =>
            cat.foldl (fun v pr => v.set pr.1 pr.2) v) v).getD r none
        = (rest.foldl (fun v cat => cat.foldl (fun v pr => v.set pr.1 pr.2) v)
            (cat.foldl (fun v pr => v.set pr.1 pr.2) v)).getD r none := rfl
      _ = rest.foldl (fun a cat =>
            cat.foldl (fun a pr => if pr.1 = r then pr.2 else a) a)
            ((cat.foldl (fun v pr => v.set pr.1 pr.2) v).getD r none) := ih _ hv'
      _ = _ := by rw [catFold_getD cat v r hv]; rfl

theorem mkGencost_length (ng nref : Nat) (gc : List (Option Rat)) :
    (mkGencost ng nref gc).length = ng := by
  simp [mkGencost]

theorem mkGencost_get? (ng nref : Nat) (gc : List (Option Rat)) (r : Nat)
    (hr : r < ng) :
    (mkGencost ng nref gc).get? r =
      some ((if r < nref then refTemplate else pvTemplate).set 7
        (nanToNum (Option.map (fun q => q * 1000) (gc.getD r none)))) := by
  simp [mkGencost, List.get?_eq_getElem?, hr]

theorem refTemplate_set7_take (x : Rat) :
    (refTemplate.set 7 x).take 7 = [1, 0, 0, 2, 0, 0, 1] := rfl

theorem pvTemplate_set7_take (x : Rat) :
    (pvTemplate.set 7 x).take 7 = [1, 0, 0, 2, 0, 0, 1] := rfl

/-- In both recognized modes the produced cost table is
`mkGencost ng nref (genCostsVec ng cats)`. -/
theorem make_objective_gencost (p : PPCI) (cats : List CostCat) (mode : String)
    (w : Rat) (Y : Nat → Nat → Rat)
    (hm : mode = "linear" ∨ mode = "linear_minloss") :
    (make_objective p cats mode w Y).gencost =
      some (mkGencost p.gen (p.bus.countP (fun b => decide (b = REF)))
        (genCostsVec p.gen cats)) := by
  rcases hm with h | h <;> subst h
  · have h2 : ("linear" : String) ≠ "linear_minloss" := by decide
    simp [make_objective, h2]
  · have h1 : ("linear_minloss" : String) ≠ "linear" := by decide
    simp [make_objective, h1, minlossUpdate]

/-- C4: In the recognized modes, the final (index-7) field of each cost-table
row is 1000 times that row's per-unit cost coefficient, where the coefficient
is the last category write to the row (default 1 for uncovered rows); a NaN
coefficient is stored as exactly zero. -/
theorem C4_gencost_final_field (p : PPCI) (cats : List CostCat) (w : Rat)
    (Y : Nat → Nat → Rat) (mode : String)
    (hm : mode = "linear" ∨ mode = "linear_minloss")
    (G : List (List Rat)) (hG : (make_objective p cats mode w Y).gencost = some G)
    (r : Nat) (hr : r < p.gen) :
    (G.get? r).bind (fun row => row.get? 7) =
      some (nanToNum (Option.map (fun q => q * 1000) (rowCoeff cats r))) ∧
    (rowCoeff cats r = none → (G.get? r).bind (fun row => row.get? 7) = some 0) := by
  have hG' := (make_objective_gencost p cats mode w Y hm).symm.trans hG
  have hGdef : G = mkGencost p.gen (p.bus.countP (fun b => decide (b = REF)))
      (genCostsVec p.gen cats) := by
    exact (Option.some.injEq _ _ ▸ hG').symm
  subst hGdef
  have hrow := mkGencost_get? p.gen (p.bus.countP (fun b => decide (b = REF)))
    (genCostsVec p.gen cats) r hr
  rw [genCostsVec_getD p.gen cats r hr] at hrow
  have hmain : ((mkGencost p.gen (p.bus.countP (fun b => decide (b = REF)))
      (genCostsVec p.gen cats)).get? r).bind (fun row => row.get? 7) =
      some (nanToNum (Option.map (fun q => q * 1000) (rowCoeff cats r))) := by
    rw [hrow]
    by_cases hb : r < p.bus.countP (fun b => decide (b = REF))
    · simp only [if_pos hb]; rfl
    · simp only [if_neg hb]; rfl
  refine ⟨hmain, fun hnan => ?_⟩
  rw [hmain, hnan]
  rfl

/-- Witness for C4: the spec scenario — one reference bus, one generator row,
cost attribute 10 — stores final coefficient `10 * 1000`. -/
theorem C4_gencost_final_field_witness :
    ∃ G, (make_objective { bus := [3], branch := [], gen := 1 }
        [[(0, some 10)]] "linear" 1 (fun _ _ => 0)).gencost = some G ∧
      (G.get? 0).bind (fun row => row.get? 7) = some 10000 := by
  have h := (C4_gencost_final_field { bus := [3], branch := [], gen := 1 }
    [[(0, some 10)]] 1 (fun _ _ => 0) "linear" (Or.inl rfl) _ rfl 0
    (by decide)).1
  exact ⟨_, rfl, h.trans (by norm_num [rowCoeff, nanToNum])⟩

/-- C3 counterexample: with one reference bus and one generator row (so
`nref = 1`) and no cost categories, the first row of the produced cost table
does not carry the reference-bus template flag: the single field in which the
two templates differ is index 7 (value 1 for the reference template, 0 for the
alternate), but in the returned table that field holds the scaled default
cost `1000`, which is neither flag value. -/
theorem C3_counterexample :
    ((make_objective { bus := [3], branch := [], gen := 1 } [] "linear" 1
        (fun _ _ => 0)).gencost.bind (fun G => G.get? 0)).bind
      (fun row => row.get? 7) = some 1000 ∧
    (1000 : Rat) ≠ refTemplate.getD 7 0 ∧ (1000 : Rat) ≠ pvTemplate.getD 7 0 := by
  refine ⟨?_, by norm_num [refTemplate], by norm_num [pvTemplate]⟩
  rw [make_objective_gencost _ _ _ _ _ (Or.inl rfl)]
  simp [mkGencost, genCostsVec, refTemplate, nanToNum, REF, List.getD]

/-- C3 as amended: the cost table has exactly `ng` rows of width 8, built by
giving the first `nref` rows the reference template and the rest the alternate
template; but the single field in which the templates differ (index 7) is then
overwritten for every row with the scaled cost coefficient, so every returned
row has fields 0-6 equal to `[1, 0, 0, 2, 0, 0, 1]` and field 7 equal to the
scaled coefficient — the returned table carries no template-flag distinction. -/
theorem C3_amended_rows (p : PPCI) (cats : List CostCat) (w : Rat)
    (Y : Nat → Nat → Rat) (mode : String)
    (hm : mode = "linear" ∨ mode = "linear_minloss")
    (G : List (List Rat))
    (hG : (make_objective p cats mode w Y).gencost = some G) :
    G.length = p.gen ∧
    ∀ r, r < p.gen → ∃ row, G.get? r = some row ∧ row.length = 8 ∧
      row.take 7 = [1, 0, 0, 2, 0, 0, 1] ∧
      row.get? 7 = some (nanToNum (Option.map (fun q => q * 1000)
        ((genCostsVec p.gen cats).getD r none))) := by
  have hG' := (make_objective_gencost p cats mode w Y hm).symm.trans hG
  have hGdef : G = mkGencost p.gen (p.bus.countP (fun b => decide (b = REF)))
      (genCostsVec p.gen cats) := by
    exact (Option.some.injEq _ _ ▸ hG').symm
  subst hGdef
  refine ⟨mkGencost_length _ _ _, fun r hr => ?_⟩
  refine ⟨_, mkGencost_get? _ _ _ r hr, ?_, ?_, ?_⟩
  · by_cases hb : r < p.bus.countP (fun b => decide (b = REF)) <;>
      simp [hb, refTemplate, pvTemplate]
  · by_cases hb : r < p.bus.countP (fun b => decide (b = REF))
    · rw [if_pos hb]; rfl
    · rw [if_neg hb]; rfl
  · by_cases hb : r < p.bus.countP (fun b => decide (b = REF))
    · rw [if_pos hb]; rfl
    · rw [if_neg hb]; rfl

/-- Witness for C3's amended statement on the counterexample case. -/
theorem C3_amended_rows_witness :
    ∃ G, (make_objective { bus := [3], branch := [], gen := 1 } [] "linear" 1
        (fun _ _ => 0)).gencost = some G ∧ G.length = 1 ∧
      ∃ row, G.get? 0 = some row ∧ row.length = 8 ∧
        row.take 7 = [1, 0, 0, 2, 0, 0, 1] := by
  have h := C3_amended_rows { bus := [3], branch := [], gen := 1 } [] 1
    (fun _ _ => 0) "linear" (Or.inl rfl) _ rfl
  obtain ⟨row, h1, h2, h3, _⟩ := h.2 0 (by decide)
  exact ⟨_, rfl, h.1, row, h1, h2, h3⟩

/-! ### Entry-level characterization of the minloss assembly loop -/

/-- One unfolding step of the assembly loop. -/
theorem minlossLoop_cons (nb nl dim : Nat) (w : Rat) (Y : Nat → Nat → Rat)
    (br : BranchRow) (rest : List BranchRow) (i0 : Nat) (H A : SparseMat) :
    minlossLoop nb nl dim w Y (br :: rest) i0 (H, A) =
      minlossLoop nb nl dim w Y rest (i0 + 1)
        (setEntry (setEntry H (dim - 2 * nl + i0) (dim - 2 * nl + i0)
            (Y br.fBus br.tBus * w))
          (dim - nl + i0) (dim - nl + i0) (Y br.fBus br.tBus),
         setEntry (setEntry (setEntry (setEntry (setEntry (setEntry A
            i0 (nb + br.fBus) 1)
            i0 (nb + br.tBus) (-1))
            i0 (dim - 2 * nl + i0) 1)
            (nl + i0) br.fBus 1)
            (nl + i0) br.tBus (-1))
            (nl + i0) (dim - nl + i0) 1) := rfl

/-- Entries of `H` at positions not on any auxiliary diagonal slot touched by
the remaining iterations are preserved by the loop. -/
theorem minlossLoop_H_pres (nb nl dim : Nat) (w : Rat) (Y : Nat → Nat → Rat) :
    ∀ (bs : List BranchRow) (i0 : Nat) (H A : SparseMat) (r c : Nat),
      (∀ k, k < bs.length →
        ¬(r = dim - 2 * nl + (i0 + k) ∧ c = dim - 2 * nl + (i0 + k)) ∧
        ¬(r = dim - nl + (i0 + k) ∧ c = dim - nl + (i0 + k))) →
      ((minlossLoop nb nl dim w Y bs i0 (H, A)).1).entry r c = H.entry r c := by
  intro bs
  induction bs with
  | nil => intro i0 H A r c _; rfl
  | cons br rest ih =>
    intro i0 H A r c h
    have h0 := h 0 (Nat.succ_pos _)
    rw [Nat.add_zero] at h0
    rw [minlossLoop_cons]
    rw [ih (i0 + 1) _ _ r c ?_]
    · rw [setEntry_entry, if_neg h0.2, setEntry_entry, if_neg h0.1]
    · intro k hk
      have e : i0 + 1 + k = i0 + (k + 1) := by omega
      rw [e]
      exact h (k + 1) (by simpa using Nat.succ_lt_succ hk)

/-- Entries of `A` in rows not touched by the remaining iterations are
preserved by the loop. -/
theorem minlossLoop_A_pres (nb nl dim : Nat) (w : Rat) (Y : Nat → Nat → Rat) :
    ∀ (bs : List BranchRow) (i0 : Nat) (H A : SparseMat) (r c : Nat),
      (∀ k, k < bs.length → r ≠ i0 + k ∧ r ≠ nl + (i0 + k)) →
      ((minlossLoop nb nl dim w Y bs i0 (H, A)).2).entry r c = A.entry r c := by
  intro bs
  induction bs with
  | nil => intro i0 H A r c _; rfl
  | cons br rest ih =>
    intro i0 H A r c h
    have h0 := h 0 (Nat.succ_pos _)
    rw [Nat.add_zero] at h0
    rw [minlossLoop_cons]
    rw [ih (i0 + 1) _ _ r c ?_]
    · rw [setEntry_entry, if_neg (fun hc => h0.2 hc.1),
        setEntry_entry, if_neg (fun hc => h0.2 hc.1),
        setEntry_entry, if_neg (fun hc => h0.2 hc.1),
        setEntry_entry, if_neg (fun hc => h0.1 hc.1),
        setEntry_entry, if_neg (fun hc => h0.1 hc.1),
        setEntry_entry, if_neg (fun hc => h0.1 hc.1)]
    · intro k hk
      have e : i0 + 1 + k = i0 + (k + 1) := by omega
      rw [e]
      exact h (k + 1) (by simpa using Nat.succ_lt_succ hk)

/-- Final values of the two diagonal penalty entries written for branch `k`. -/
theorem minlossLoop_H_val (nb ng nl dim : Nat) (w : Rat) (Y : Nat → Nat → Rat)
    (hdim : dim = 2 * nb + 2 * ng + 2 * nl) :
    ∀ (bs : List BranchRow) (i0 : Nat) (H A : SparseMat) (k : Nat)
      (hk : k < bs.length), i0 + bs.length ≤ nl →
      ((minlossLoop nb nl dim w Y bs i0 (H, A)).1).entry
          (dim - 2 * nl + (i0 + k)) (dim - 2 * nl + (i0 + k)) =
        Y (bs.get ⟨k, hk⟩).fBus (bs.get ⟨k, hk⟩).tBus * w ∧
      ((minlossLoop nb nl dim w Y bs i0 (H, A)).1).entry
          (dim - nl + (i0 + k)) (dim - nl + (i0 + k)) =
        Y (bs.get ⟨k, hk⟩).fBus (bs.get ⟨k, hk⟩).tBus := by
  intro bs
  induction bs with
  | nil => intro i0 H A k hk _; exact absurd hk (by simp)
  | cons br rest ih =>
    intro i0 H A k hk htot
    have hrl : (br :: rest).length = rest.length + 1 := rfl
    rw [hrl] at htot
    rw [minlossLoop_cons]
    cases k with
    | zero =>
      have hg : (br :: rest).get ⟨0, hk⟩ = br := rfl
      simp only [Nat.add_zero]
      rw [hg]
      have hcond : ∀ (r : Nat), (r = dim - 2 * nl + i0 ∨ r = dim - nl + i0) →
          ∀ j, j < rest.length →
          ¬(r = dim - 2 * nl + (i0 + 1 + j) ∧ r = dim - 2 * nl + (i0 + 1 + j)) ∧
          ¬(r = dim - nl + (i0 + 1 + j) ∧ r = dim - nl + (i0 + 1 + j)) := by
        intro r hr j hj
        constructor
        · intro hc
          have h1 := hc.1
          rcases hr with h | h <;> omega
        · intro hc
          have h1 := hc.1
          rcases hr with h | h <;> omega
      constructor
      · rw [minlossLoop_H_pres nb nl dim w Y rest (i0 + 1) _ _ _ _
            (hcond _ (Or.inl rfl))]
        rw [setEntry_entry, if_neg (fun hc => by have := hc.1; omega),
          setEntry_entry, if_pos ⟨rfl, rfl⟩]
      · rw [minlossLoop_H_pres nb nl dim w Y rest (i0 + 1) _ _ _ _
            (hcond _ (Or.inr rfl))]
        rw [setEntry_entry, if_pos ⟨rfl, rfl⟩]
    | succ m =>
      have hm : m < rest.length := by
        have := hk
        simp at this
        omega
      have e : i0 + (m + 1) = (i0 + 1) + m := by omega
      have hg : (br :: rest).get ⟨m + 1, hk⟩ = rest.get ⟨m, hm⟩ := rfl
      rw [e, hg]
      exact ih (i0 + 1) _ _ m hm (by omega)

/-- Final values of the two constraint rows written for branch `k`: the nested
conditional mirrors the assignment order `A[i, nb+f] = 1`, `A[i, nb+t] = -1`,
`A[i, aux] = 1` (a later assignment to the same cell wins). -/
theorem minlossLoop_A_val (nb nl dim : Nat) (w : Rat) (Y : Nat → Nat → Rat) :
    ∀ (bs : List BranchRow) (i0 : Nat) (H A : SparseMat) (k : Nat)
      (hk : k < bs.length), i0 + bs.length ≤ nl → ∀ c,
      ((minlossLoop nb nl dim w Y bs i0 (H, A)).2).entry (i0 + k) c =
        (if c = dim - 2 * nl + (i0 + k) then 1
         else if c = nb + (bs.get ⟨k, hk⟩).tBus then -1
         else if c = nb + (bs.get ⟨k, hk⟩).fBus then 1
         else A.entry (i0 + k) c) ∧
      ((minlossLoop nb nl dim w Y bs i0 (H, A)).2).entry (nl + (i0 + k)) c =
        (if c = dim - nl + (i0 + k) then 1
         else if c = (bs.get ⟨k, hk⟩).tBus then -1
         else if c = (bs.get ⟨k, hk⟩).fBus then 1
         else A.entry (nl + (i0 + k)) c) := by
  intro bs
  induction bs with
  | nil => intro i0 H A k hk _; exact absurd hk (by simp)
  | cons br rest ih =>
    intro i0 H A k hk htot c
    have hrl : (br :: rest).length = rest.length + 1 := rfl
    rw [hrl] at htot
    rw [minlossLoop_cons]
    cases k with
    | zero =>
      have hg : (br :: rest).get ⟨0, hk⟩ = br := rfl
      simp only [Nat.add_zero]
      rw [hg]
      constructor
      · rw [minlossLoop_A_pres nb nl dim w Y rest (i0 + 1) _ _ _ _ ?_]
        · rw [setEntry_entry, if_neg (fun hc => by have := hc.1; omega),
            setEntry_entry, if_neg (fun hc => by have := hc.1; omega),
            setEntry_entry, if_neg (fun hc => by have := hc.1; omega)]
          by_cases h1 : c = dim - 2 * nl + i0
          · rw [setEntry_entry, if_pos ⟨rfl, h1⟩, if_pos h1]
          · rw [setEntry_entry, if_neg (fun hc => h1 hc.2), if_neg h1]
            by_cases h2 : c = nb + br.tBus
            · rw [setEntry_entry, if_pos ⟨rfl, h2⟩, if_pos h2]
            · rw [setEntry_entry, if_neg (fun hc => h2 hc.2), if_neg h2]
              by_cases h3 : c = nb + br.fBus
              · rw [setEntry_entry, if_pos ⟨rfl, h3⟩, if_pos h3]
              · rw [setEntry_entry, if_neg (fun hc => h3 hc.2), if_neg h3]
        · intro j hj
          constructor
          · omega
          · omega
      · rw [minlossLoop_A_pres nb nl dim w Y rest (i0 + 1) _ _ _ _ ?_]
        · by_cases h1 : c = dim - nl + i0
          · rw [setEntry_entry, if_pos ⟨rfl, h1⟩, if_pos h1]
          · rw [setEntry_entry, if_neg (fun hc => h1 hc.2), if_neg h1]
            by_cases h2 : c = br.tBus
            · rw [setEntry_entry, if_pos ⟨rfl, h2⟩, if_pos h2]
            · rw [setEntry_entry, if_neg (fun hc => h2 hc.2), if_neg h2]
              by_cases h3 : c = br.fBus
              · rw [setEntry_entry, if_pos ⟨rfl, h3⟩, if_pos h3]
              · rw [setEntry_entry, if_neg (fun hc => h3 hc.2), if_neg h3,
                  setEntry_entry, if_neg (fun hc => by have := hc.1; omega),
                  setEntry_entry, if_neg (fun hc => by have := hc.1; omega),
                  setEntry_entry, if_neg (fun hc => by have := hc.1; omega)]
        · intro j hj
          constructor
          · omega
          · omega
    | succ m =>
      have hm : m < rest.length := by
        have := hk
        simp at this
        omega
      have e : i0 + (m + 1) = (i0 + 1) + m := by omega
      have hg : (br :: rest).get ⟨m + 1, hk⟩ = rest.get ⟨m, hm⟩ := rfl
      rw [e, hg]
      have hstep := ih (i0 + 1)
        (setEntry (setEntry H (dim - 2 * nl + i0) (dim - 2 * nl + i0)
            (Y br.fBus br.tBus * w))
          (dim - nl + i0) (dim - nl + i0) (Y br.fBus br.tBus))
        (setEntry (setEntry (setEntry (setEntry (setEntry (setEntry A
            i0 (nb + br.fBus) 1)
            i0 (nb + br.tBus) (-1))
            i0 (dim - 2 * nl + i0) 1)
            (nl + i0) br.fBus 1)
            (nl + i0) br.tBus (-1))
            (nl + i0) (dim - nl + i0) 1)
        m hm (by omega) c
      have haux1 : (setEntry (setEntry (setEntry (setEntry (setEntry (setEntry A
          i0 (nb + br.fBus) 1)
          i0 (nb + br.tBus) (-1))
          i0 (dim - 2 * nl + i0) 1)
          (nl + i0) br.fBus 1)
          (nl + i0) br.tBus (-1))
          (nl + i0) (dim - nl + i0) 1).entry (i0 + 1 + m) c =
          A.entry (i0 + 1 + m) c := by
        rw [setEntry_entry, if_neg (fun hc => by have := hc.1; omega),
          setEntry_entry, if_neg (fun hc => by have := hc.1; omega),
          setEntry_entry, if_neg (fun hc => by have := hc.1; omega),
          setEntry_entry, if_neg (fun hc => by have := hc.1; omega),
          setEntry_entry, if_neg (fun hc => by have := hc.1; omega),
          setEntry_entry, if_neg (fun hc => by have := hc.1; omega)]
      have haux2 : (setEntry (setEntry (setEntry (setEntry (setEntry (setEntry A
          i0 (nb + br.fBus) 1)
          i0 (nb + br.tBus) (-1))
          i0 (dim - 2 * nl + i0) 1)
          (nl + i0) br.fBus 1)
          (nl + i0) br.tBus (-1))
          (nl + i0) (dim - nl + i0) 1).entry (nl + (i0 + 1 + m)) c =
          A.entry (nl + (i0 + 1 + m)) c := by
        rw [setEntry_entry, if_neg (fun hc => by have := hc.1; omega),
          setEntry_entry, if_neg (fun hc => by have := hc.1; omega),
          setEntry_entry, if_neg (fun hc => by have := hc.1; omega),
          setEntry_entry, if_neg (fun hc => by have := hc.1; omega),
          setEntry_entry, if_neg (fun hc => by have := hc.1; omega),
          setEntry_entry, if_neg (fun hc => by have := hc.1; omega)]
      rw [haux1] at hstep
      rw [haux2] at hstep
      exact hstep

/-- In `"linear_minloss"` mode the `H` and `A` artifacts are exactly the two
matrices assembled by the per-branch loop, started from all-zero matrices. -/
theorem make_objective_minloss_H_A (p : PPCI) (cats : List CostCat) (w : Rat)
    (Y : Nat → Nat → Rat) :
    (make_objective p cats "linear_minloss" w Y).H =
      some (minlossLoop p.bus.length p.branch.length
        (2 * p.bus.length + 2 * p.gen + 2 * p.branch.length) w Y p.branch 0
        (zeroMat (2 * p.bus.length + 2 * p.gen + 2 * p.branch.length)
           (2 * p.bus.length + 2 * p.gen + 2 * p.branch.length),
         zeroMat (2 * p.branch.length)
           (2 * p.bus.length + 2 * p.gen + 2 * p.branch.length))).1 ∧
    (make_objective p cats "linear_minloss" w Y).A =
      some (minlossLoop p.bus.length p.branch.length
        (2 * p.bus.length + 2 * p.gen + 2 * p.branch.length) w Y p.branch 0
        (zeroMat (2 * p.bus.length + 2 * p.gen + 2 * p.branch.length)
           (2 * p.bus.length + 2 * p.gen + 2 * p.branch.length),
         zeroMat (2 * p.branch.length)
           (2 * p.bus.length + 2 * p.gen + 2 * p.branch.length))).2 := by
  have h1 : ("linear_minloss" : String) ≠ "linear" := by decide
  constructor <;> simp [make_objective, h1, minlossUpdate]

/-- C2: In `"linear_minloss"` mode, for every branch `k` joining buses `f` and
`t` of a well-formed prepared case (bus indices in range, no self-loop) with
nonvanishing branch admittance magnitude and nonzero loss weight: `H` has
diagonal value `|Y(f,t)| * w` at the magnitude-auxiliary slot `dim - 2*nl + k`
and `|Y(f,t)|` at the angle-auxiliary slot `dim - nl + k`, and these auxiliary
slots are exactly the nonzero diagonal positions of `H` (two per branch);
constraint row `k` has exactly the three nonzero coefficients `+1` at the
source-bus variable, `-1` at the target-bus variable and `+1` at the branch's
magnitude-auxiliary slot, and row `nl + k` likewise for the angle quantity. -/
theorem C2_minloss_entries (p : PPCI) (cats : List CostCat) (w : Rat)
    (Y : Nat → Nat → Rat)
    (hwf : ∀ br ∈ p.branch, br.fBus < p.bus.length ∧ br.tBus < p.bus.length ∧
      br.fBus ≠ br.tBus)
    (hY : ∀ br ∈ p.branch, Y br.fBus br.tBus ≠ 0)
    (hw : w ≠ 0)
    (Hm Am : SparseMat)
    (hH : (make_objective p cats "linear_minloss" w Y).H = some Hm)
    (hA : (make_objective p cats "linear_minloss" w Y).A = some Am) :
    let nb := p.bus.length
    let nl := p.branch.length
    let dim := 2 * nb + 2 * p.gen + 2 * nl
    (∀ k (hk : k < nl),
      Hm.entry (dim - 2 * nl + k) (dim - 2 * nl + k) =
        Y (p.branch.get ⟨k, hk⟩).fBus (p.branch.get ⟨k, hk⟩).tBus * w ∧
      Hm.entry (dim - nl + k) (dim - nl + k) =
        Y (p.branch.get ⟨k, hk⟩).fBus (p.branch.get ⟨k, hk⟩).tBus ∧
      Am.entry k (nb + (p.branch.get ⟨k, hk⟩).fBus) = 1 ∧
      Am.entry k (nb + (p.branch.get ⟨k, hk⟩).tBus) = -1 ∧
      Am.entry k (dim - 2 * nl + k) = 1 ∧
      (∀ c, c ≠ nb + (p.branch.get ⟨k, hk⟩).fBus →
        c ≠ nb + (p.branch.get ⟨k, hk⟩).tBus → c ≠ dim - 2 * nl + k →
        Am.entry k c = 0) ∧
      Am.entry (nl + k) (p.branch.get ⟨k, hk⟩).fBus = 1 ∧
      Am.entry (nl + k) (p.branch.get ⟨k, hk⟩).tBus = -1 ∧
      Am.entry (nl + k) (dim - nl + k) = 1 ∧
      (∀ c, c ≠ (p.branch.get ⟨k, hk⟩).fBus →
        c ≠ (p.branch.get ⟨k, hk⟩).tBus → c ≠ dim - nl + k →
        Am.entry (nl + k) c = 0)) ∧
    (∀ j, j < dim → (Hm.entry j j ≠ 0 ↔ dim - 2 * nl ≤ j)) := by
  intro nb nl dim
  have hnb : nb = p.bus.length := rfl
  have hnl : nl = p.branch.length := rfl
  have hdim : dim = 2 * nb + 2 * p.gen + 2 * nl := rfl
  obtain ⟨hH', hA'⟩ := make_objective_minloss_H_A p cats w Y
  rw [hH] at hH'
  rw [hA] at hA'
  have hHm := (Option.some.injEq _ _ ▸ hH')
  have hAm := (Option.some.injEq _ _ ▸ hA')
  subst hHm
  subst hAm
  constructor
  · intro k hk
    have hbr := hwf (p.branch.get ⟨k, hk⟩) (p.branch.get_mem k hk)
    have hval := minlossLoop_H_val nb p.gen nl dim w Y hdim p.branch 0
      (zeroMat dim dim) (zeroMat (2 * nl) dim) k hk (by omega)
    simp only [Nat.zero_add] at hval
    have haval := minlossLoop_A_val nb nl dim w Y p.branch 0
      (zeroMat dim dim) (zeroMat (2 * nl) dim) k hk (by omega)
    simp only [Nat.zero_add] at haval
    refine ⟨hval.1, hval.2, ?_, ?_, ?_, ?_, ?_, ?_, ?_, ?_⟩
    · rw [(haval _).1, if_neg (by omega), if_neg (by omega), if_pos rfl]
    · rw [(haval _).1, if_neg (by omega), if_pos rfl]
    · rw [(haval _).1, if_pos rfl]
    · intro c hc1 hc2 hc3
      rw [(haval c).1, if_neg hc3, if_neg hc2, if_neg hc1]
      rfl
    · rw [(haval _).2, if_neg (by omega), if_neg (by omega), if_pos rfl]
    · rw [(haval _).2, if_neg (by omega), if_pos rfl]
    · rw [(haval _).2, if_pos rfl]
    · intro c hc1 hc2 hc3
      rw [(haval c).2, if_neg hc3, if_neg hc2, if_neg hc1]
      rfl
  · intro j hj
    by_cases hj1 : j < dim - 2 * nl
    · have hzero : ((minlossLoop nb nl dim w Y p.branch 0
          (zeroMat dim dim, zeroMat (2 * nl) dim)).1).entry j j = 0 := by
        rw [minlossLoop_H_pres nb nl dim w Y p.branch 0 _ _ j j ?_]
        · rfl
        · intro m hm
          constructor
          · intro hc
            have := hc.1
            omega
          · intro hc
            have := hc.1
            omega
      rw [hzero]
      constructor
      · intro hne
        exact absurd rfl hne
      · intro hle
        omega
    · by_cases hj2 : j < dim - nl
      · have hk : j - (dim - 2 * nl) < nl := by omega
        have he : j = dim - 2 * nl + (0 + (j - (dim - 2 * nl))) := by omega
        have hval := (minlossLoop_H_val nb p.gen nl dim w Y hdim p.branch 0
          (zeroMat dim dim) (zeroMat (2 * nl) dim) (j - (dim - 2 * nl)) hk
          (by omega)).1
        rw [← he] at hval
        rw [hval]
        have hbr := hY _ (p.branch.get_mem (j - (dim - 2 * nl)) hk)
        constructor
        · intro _
          omega
        · intro _
          exact mul_ne_zero hbr hw
      · have hk : j - (dim - nl) < nl := by omega
        have he : j = dim - nl + (0 + (j - (dim - nl))) := by omega
        have hval := (minlossLoop_H_val nb p.gen nl dim w Y hdim p.branch 0
          (zeroMat dim dim) (zeroMat (2 * nl) dim) (j - (dim - nl)) hk
          (by omega)).2
        rw [← he] at hval
        rw [hval]
        have hbr := hY _ (p.branch.get_mem (j - (dim - nl)) hk)
        constructor
        · intro _
          omega
        · intro _
          exact hbr

/-- Witness for C2 on a 2-bus, 1-branch, 1-generator case with `|Y| = 5` and
loss weight 2 (`dim = 8`; magnitude slot 6, angle slot 7). -/
theorem C2_minloss_entries_witness :
    ∃ Hm Am,
      (make_objective { bus := [3, 1], branch := [⟨0, 1⟩], gen := 1 } []
        "linear_minloss" 2 (fun _ _ => 5)).H = some Hm ∧
      (make_objective { bus := [3, 1], branch := [⟨0, 1⟩], gen := 1 } []
        "linear_minloss" 2 (fun _ _ => 5)).A = some Am ∧
      Hm.entry 6 6 = 10 ∧ Hm.entry 7 7 = 5 ∧
      Am.entry 0 2 = 1 ∧ Am.entry 0 3 = -1 ∧ Am.entry 0 6 = 1 ∧
      Am.entry 1 0 = 1 ∧ Am.entry 1 1 = -1 ∧ Am.entry 1 7 = 1 := by
  have h := C2_minloss_entries { bus := [3, 1], branch := [⟨0, 1⟩], gen := 1 } []
    2 (fun _ _ => 5) (by decide) (fun br _ => by norm_num) (by norm_num) _ _ rfl rfl
  obtain ⟨h1, -⟩ := h
  have hk0 := h1 0 (by decide)
  exact ⟨_, _, rfl, rfl, hk0.1.trans (by norm_num), hk0.2.1, hk0.2.2.1,
    hk0.2.2.2.1, hk0.2.2.2.2.1, hk0.2.2.2.2.2.2.1, hk0.2.2.2.2.2.2.2.1,
    hk0.2.2.2.2.2.2.2.2.1⟩

/-! ### Controller lemmas -/

theorem netExt (n1 n2 : Net) (h1 : n1.cells = n2.cells)
    (h2 : n1.objAttrs = n2.objAttrs) : n1 = n2 := by
  cases n1
  cases n2
  cases h1
  cases h2
  rfl

theorem write_to_net_single_index (c : ConstControl) (n : Net)
    (h : c.write = "single_index") :
    write_to_net c n = Except.ok (writeToSingleIndex c n) := by
  simp only [write_to_net, h]
  rw [if_pos trivial]

theorem write_to_net_loc (c : ConstControl) (n : Net) (h : c.write = "loc") :
    write_to_net c n = Except.ok (writeWithLoc c n) := by
  simp only [write_to_net, h]
  rw [if_pos trivial, if_neg (by decide), if_neg (by decide)]

theorem write_to_net_object (c : ConstControl) (n : Net) (h : c.write = "object") :
    write_to_net c n = Except.ok (writeToObjectAttribute c n) := by
  simp only [write_to_net, h]
  rw [if_pos trivial, if_neg (by decide), if_neg (by decide), if_neg (by decide)]

theorem time_step_applied (c : ConstControl) (n : Net) (t : Nat) :
    (time_step c n t).1.applied = false := by
  unfold time_step
  rcases c.data_source with _ | ds <;> simp
  split <;> rfl

theorem copApply_applied (s : ConstControl × Net) (op : COp) :
    (copApply s op).1.applied =
      (match op with
       | .timeStep _ => false
       | .controlStep => true
       | .writeToNet => s.1.applied) := by
  cases op with
  | timeStep t => exact time_step_applied s.1 s.2 t
  | controlStep => rfl
  | writeToNet => rfl

/-- C7: `has_converged` returns exactly the applied flag, and over any
sequence of operations the flag is governed solely by `time_step` (resets to
false) and `control_step` (sets to true); `write_to_net` never changes it.
`appliedSpec` is this last-flag-operation-wins description. -/
theorem C7_applied_flag (s : ConstControl × Net) (ops : List COp) :
    is_converged (runOps s ops).1 = appliedSpec s.1.applied ops := by
  induction ops generalizing s with
  | nil => rfl
  | cons op rest ih =>
    show is_converged (runOps (copApply s op) rest).1 =
      appliedSpec s.1.applied (op :: rest)
    rw [ih (copApply s op)]
    rw [copApply_applied]
    cases op <;> rfl

/-- C10: the constructor only ever selects the `"object"`, `"single_index"`
or `"loc"` write strategy — never `"all_index"` — and consequently
`write_to_net` on a constructor-built controller always succeeds; the
unrecognized-strategy error branch is unreachable. -/
theorem C10_strategy_total (element varName : String)
    (element_index : Sum Nat (List Nat)) (profile_name : String)
    (data_source : Option DataSource) (scale_factor : Rat) (n : Net) :
    let c := constControlInit element varName element_index profile_name
      data_source scale_factor
    (c.write = "object" ∨ c.write = "single_index" ∨ c.write = "loc") ∧
    c.write ≠ "all_index" ∧
    ∃ n', write_to_net c n = Except.ok n' := by
  intro c
  by_cases hv : varName.startsWith "object"
  · have hw : c.write = "object" := by simp [c, constControlInit, hv]
    exact ⟨Or.inl hw, by rw [hw]; decide,
      ⟨_, write_to_net_object c n hw⟩⟩
  · cases hidx : element_index with
    | inl i =>
      have hw : c.write = "single_index" := by
        simp [c, constControlInit, hv, hidx]
      exact ⟨Or.inr (Or.inl hw), by rw [hw]; decide,
        ⟨_, write_to_net_single_index c n hw⟩⟩
    | inr l =>
      have hw : c.write = "loc" := by
        simp [c, constControlInit, hv, hidx]
      exact ⟨Or.inr (Or.inr hw), by rw [hw]; decide,
        ⟨_, write_to_net_loc c n hw⟩⟩

theorem setCell_cells_same (n : Net) (e v : String) (i : Nat) (q : Value) :
    (setCell n e v i q).cells e v i = q := by
  simp [setCell]

theorem setCell_self (n : Net) (e v : String) (i : Nat) :
    setCell n e v i (n.cells e v i) = n := by
  apply netExt
  · funext e' v' i'
    simp only [setCell]
    split
    · rename_i h
      obtain ⟨h1, h2, h3⟩ := h
      subst h1
      subst h2
      subst h3
      rfl
    · rfl
  · rfl

theorem time_step_none (c : ConstControl) (n : Net) (t : Nat)
    (h : c.data_source = none) :
    time_step c n t =
      ({ c with
          applied := false
          values := some (readCurrent n c.element c.varName c.element_index) },
       write_to_net
         { c with
           applied := false
           values := some (readCurrent n c.element c.varName c.element_index) }
         n) := by
  simp [time_step, h]

theorem time_step_src_absent (c : ConstControl) (n : Net) (t : Nat)
    (ds : DataSource) (hds : c.data_source = some ds)
    (hget : ds.get t c.profile_name c.scale_factor = none) :
    time_step c n t =
      ({ c with
         applied := false
         values := none },
       Except.ok n) := by
  simp [time_step, hds, hget]

theorem time_step_src_value (c : ConstControl) (n : Net) (t : Nat)
    (ds : DataSource) (v : Value) (hds : c.data_source = some ds)
    (hget : ds.get t c.profile_name c.scale_factor = some v) :
    time_step c n t =
      ({ c with
         applied := false
         values := some v },
       write_to_net
         { c with
           applied := false
           values := some v }
         n) := by
  simp [time_step, hds, hget]

/-- A fold of elementwise `.loc` writes that each re-write a cell's current
value leaves the net unchanged. -/
theorem foldSetCell_fixed (e v : String) :
    ∀ (pairs : List (Nat × Rat)) (n : Net),
      (∀ pr ∈ pairs, Value.scalar pr.2 = n.cells e v pr.1) →
      pairs.foldl (fun n' pr => setCell n' e v pr.1 (Value.scalar pr.2)) n = n := by
  intro pairs
  induction pairs with
  | nil => intro n _; rfl
  | cons pr rest ih =>
    intro n h
    have hhd : setCell n e v pr.1 (Value.scalar pr.2) = n := by
      rw [h pr (List.mem_cons_self pr rest)]
      exact setCell_self n e v pr.1
    calc (pr :: rest).foldl (fun n' pr => setCell n' e v pr.1 (Value.scalar pr.2)) n
        = rest.foldl (fun n' pr => setCell n' e v pr.1 (Value.scalar pr.2))
            (setCell n e v pr.1 (Value.scalar pr.2)) := rfl
      _ = rest.foldl (fun n' pr => setCell n' e v pr.1 (Value.scalar pr.2)) n := by
            rw [hhd]
      _ = n := ih n (fun pr hpr => h pr (List.mem_cons_of_mem _ hpr))

/-- Members of `l.zip (l.map f)` pair each element with its image. -/
theorem mem_zip_map_self {α β : Type} (f : α → β) :
    ∀ (l : List α) (pr : α × β), pr ∈ l.zip (l.map f) → pr.1 ∈ l ∧ pr.2 = f pr.1 := by
  intro l
  induction l with
  | nil => intro pr h; exact absurd h (List.not_mem_nil pr)
  | cons a t ih =>
    intro pr h
    simp only [List.map_cons, List.zip_cons_cons, List.mem_cons] at h
    rcases h with h | h
    · subst h
      exact ⟨List.mem_cons_self a t, rfl⟩
    · obtain ⟨h1, h2⟩ := ih pr h
      exact ⟨List.mem_cons_of_mem a h1, h2⟩

/-- C8: an injector constructed without a profile source re-reads the current
values at its tracked indices and writes them back, leaving the net exactly
unchanged — for both the single-index and the label-list write strategies
(the tracked cells of a numeric column hold scalars). -/
theorem C8_no_source_identity (element varName : String)
    (element_index : Sum Nat (List Nat)) (profile_name : String)
    (scale_factor : Rat) (n : Net) (t : Nat)
    (hobj : ¬ varName.startsWith "object")
    (hsc : ∀ l, element_index = Sum.inr l →
      ∀ i ∈ l, ∃ q, n.cells element varName i = Value.scalar q) :
    (time_step (constControlInit element varName element_index profile_name
      none scale_factor) n t).2 = Except.ok n := by
  cases hidx : element_index with
  | inl i =>
    subst hidx
    simp [time_step, constControlInit, write_to_net, writeToSingleIndex,
      readCurrent, hobj, setCell_self]
  | inr l =>
    subst hidx
    simp [time_step, constControlInit, write_to_net, writeWithLoc, readCurrent,
      hobj, (by decide : ("loc" : String) ≠ "single_index"),
      (by decide : ("loc" : String) ≠ "all_index")]
    apply foldSetCell_fixed
    intro pr hpr
    obtain ⟨ha, hv⟩ := mem_zip_map_self _ l pr hpr
    obtain ⟨q, hq⟩ := hsc l rfl pr.1 ha
    rw [hv, hq]
    rfl

/-- Witness for C8: a single-cell injector with no data source leaves a net
holding constant 7 unchanged. -/
theorem C8_no_source_identity_witness :
    (time_step (constControlInit "load" "p_mw" (Sum.inl 0) "prof" none 1)
      { cells := fun _ _ _ => Value.scalar 7
        objAttrs := fun _ _ _ => Value.scalar 0 } 4).2 =
      Except.ok { cells := fun _ _ _ => Value.scalar 7
                  objAttrs := fun _ _ _ => Value.scalar 0 } :=
  C8_no_source_identity "load" "p_mw" (Sum.inl 0) "prof" 1
    { cells := fun _ _ _ => Value.scalar 7
      objAttrs := fun _ _ _ => Value.scalar 0 } 4 (by decide)
    (fun l h => absurd h (by simp))

theorem setObjAttr_same (n : Net) (e : String) (i : Nat) (a : String) (q : Value) :
    (setObjAttr n e i a q).objAttrs e i a = q := by
  simp [setObjAttr]

theorem foldSetCell_notin (e v : String) :
    ∀ (pairs : List (Nat × Rat)) (n : Net) (i : Nat),
      (∀ pr ∈ pairs, i ≠ pr.1) →
      (pairs.foldl (fun n' pr => setCell n' e v pr.1 (Value.scalar pr.2)) n).cells
        e v i = n.cells e v i := by
  intro pairs
  induction pairs with
  | nil => intro n i _; rfl
  | cons pr rest ih =>
    intro n i h
    calc ((pr :: rest).foldl (fun n' pr => setCell n' e v pr.1 (Value.scalar pr.2)) n).cells e v i
        = (rest.foldl (fun n' pr => setCell n' e v pr.1 (Value.scalar pr.2))
            (setCell n e v pr.1 (Value.scalar pr.2))).cells e v i := rfl
      _ = (setCell n e v pr.1 (Value.scalar pr.2)).cells e v i :=
            ih _ i (fun pr hpr => h pr (List.mem_cons_of_mem _ hpr))
      _ = n.cells e v i := by
            simp [setCell, fun hc => h pr (List.mem_cons_self pr rest) hc]

theorem foldSetCell_get (e v : String) :
    ∀ (l : List Nat) (vs : List Rat) (n : Net) (hnd : l.Nodup)
      (hlen : vs.length = l.length) (j : Nat) (hj : j < l.length),
        ((l.zip vs).foldl (fun n' pr => setCell n' e v pr.1 (Value.scalar pr.2)) n).cells
          e v (l.get ⟨j, hj⟩) = Value.scalar (vs.get ⟨j, by omega⟩) := by
  intro l
  induction l with
  | nil => intro vs n _ _ j hj; exact absurd hj (by simp)
  | cons a rest ih =>
    intro vs n hnd hlen j hj
    cases vs with
    | nil => exact absurd hlen (by simp)
    | cons b vs' =>
      have hlen' : vs'.length = rest.length := by simpa using hlen
      cases j with
      | zero =>
        show ((rest.zip vs').foldl (fun n' pr => setCell n' e v pr.1 (Value.scalar pr.2))
          (setCell n e v a (Value.scalar b))).cells e v a = Value.scalar b
        rw [foldSetCell_notin e v _ _ a ?_]
        · exact setCell_cells_same _ e v a _
        · intro pr hpr
          have hmem := List.of_mem_zip hpr
          intro hc
          exact (List.nodup_cons.mp hnd).1 (hc ▸ hmem.1)
      | succ m =>
        have hm : m < rest.length := by simpa using hj
        show ((rest.zip vs').foldl (fun n' pr => setCell n' e v pr.1 (Value.scalar pr.2))
          (setCell n e v a (Value.scalar b))).cells e v (rest.get ⟨m, hm⟩) =
          Value.scalar (vs'.get ⟨m, by omega⟩)
        exact ih vs' _ (List.nodup_cons.mp hnd).2 hlen' m hm

theorem foldSetObj_notin (e a : String) :
    ∀ (pairs : List (Nat × Rat)) (n : Net) (i : Nat),
      (∀ pr ∈ pairs, i ≠ pr.1) →
      (pairs.foldl (fun n' pr => setObjAttr n' e pr.1 a (Value.scalar pr.2)) n).objAttrs
        e i a = n.objAttrs e i a := by
  intro pairs
  induction pairs with
  | nil => intro n i _; rfl
  | cons pr rest ih =>
    intro n i h
    calc ((pr :: rest).foldl (fun n' pr => setObjAttr n' e pr.1 a (Value.scalar pr.2)) n).objAttrs e i a
        = (rest.foldl (fun n' pr => setObjAttr n' e pr.1 a (Value.scalar pr.2))
            (setObjAttr n e pr.1 a (Value.scalar pr.2))).objAttrs e i a := rfl
      _ = (setObjAttr n e pr.1 a (Value.scalar pr.2)).objAttrs e i a :=
            ih _ i (fun pr hpr => h pr (List.mem_cons_of_mem _ hpr))
      _ = n.objAttrs e i a := by
            simp [setObjAttr, fun hc => h pr (List.mem_cons_self pr rest) hc]

theorem foldSetObj_get (e a : String) :
    ∀ (l : List Nat) (vs : List Rat) (n : Net) (hnd : l.Nodup)
      (hlen : vs.length = l.length) (j : Nat) (hj : j < l.length),
        ((l.zip vs).foldl (fun n' pr => setObjAttr n' e pr.1 a (Value.scalar pr.2)) n).objAttrs
          e (l.get ⟨j, hj⟩) a = Value.scalar (vs.get ⟨j, by omega⟩) := by
  intro l
  induction l with
  | nil => intro vs n _ _ j hj; exact absurd hj (by simp)
  | cons hd rest ih =>
    intro vs n hnd hlen j hj
    cases vs with
    | nil => exact absurd hlen (by simp)
    | cons b vs' =>
      have hlen' : vs'.length = rest.length := by simpa using hlen
      cases j with
      | zero =>
        show ((rest.zip vs').foldl (fun n' pr => setObjAttr n' e pr.1 a (Value.scalar pr.2))
          (setObjAttr n e hd a (Value.scalar b))).objAttrs e hd a = Value.scalar b
        rw [foldSetObj_notin e a _ _ hd ?_]
        · exact setObjAttr_same _ e hd a _
        · intro pr hpr
          have hmem := List.of_mem_zip hpr
          intro hc
          exact (List.nodup_cons.mp hnd).1 (hc ▸ hmem.1)
      | succ m =>
        have hm : m < rest.length := by simpa using hj
        show ((rest.zip vs').foldl (fun n' pr => setObjAttr n' e pr.1 a (Value.scalar pr.2))
          (setObjAttr n e hd a (Value.scalar b))).objAttrs e (rest.get ⟨m, hm⟩) a =
          Value.scalar (vs'.get ⟨m, by omega⟩)
        exact ih vs' _ (List.nodup_cons.mp hnd).2 hlen' m hm

/-- C6: round trip for an injector constructed with a profile source.  If the
source returns the absent marker, no write occurs and the net is returned
unchanged; if it returns a value `v`, the write dispatched by the
pre-selected strategy stores exactly `v` (as returned — scaling is the
source's job) in the targeted cell(s): the single cell for an integer index,
each listed cell elementwise for a label list, and the embedded object's
attribute for an `object.<attr>` variable. -/
theorem C6_source_round_trip (element varName : String)
    (element_index : Sum Nat (List Nat)) (profile_name : String)
    (ds : DataSource) (scale_factor : Rat) (n : Net) (t : Nat) :
    let c := constControlInit element varName element_index profile_name
      (some ds) scale_factor
    (ds.get t profile_name scale_factor = none →
      (time_step c n t).2 = Except.ok n) ∧
    (∀ (v : Value) (i : Nat), ds.get t profile_name scale_factor = some v →
      ¬ varName.startsWith "object" → element_index = Sum.inl i →
      ∃ n', (time_step c n t).2 = Except.ok n' ∧
        n'.cells element varName i = v) ∧
    (∀ (vs : List Rat) (l : List Nat),
      ds.get t profile_name scale_factor = some (Value.vector vs) →
      ¬ varName.startsWith "object" → element_index = Sum.inr l →
      ∀ (hnd : l.Nodup) (hlen : vs.length = l.length),
      ∃ n', (time_step c n t).2 = Except.ok n' ∧
        ∀ (j : Nat) (hj : j < l.length),
          n'.cells element varName (l.get ⟨j, hj⟩) =
            Value.scalar (vs.get ⟨j, by omega⟩)) ∧
    (∀ (v : Value) (i : Nat), ds.get t profile_name scale_factor = some v →
      varName.startsWith "object" → element_index = Sum.inl i →
      ∃ n', (time_step c n t).2 = Except.ok n' ∧
        n'.objAttrs element i (((varName.splitOn ".").get? 1).getD "") = v) ∧
    (∀ (vs : List Rat) (l : List Nat),
      ds.get t profile_name scale_factor = some (Value.vector vs) →
      varName.startsWith "object" → element_index = Sum.inr l → 1 < l.length →
      ∀ (hnd : l.Nodup) (hlen : vs.length = l.length),
      ∃ n', (time_step c n t).2 = Except.ok n' ∧
        ∀ (j : Nat) (hj : j < l.length),
          n'.objAttrs element (l.get ⟨j, hj⟩)
            (((varName.splitOn ".").get? 1).getD "") =
              Value.scalar (vs.get ⟨j, by omega⟩)) := by
  intro c
  refine ⟨?_, ?_, ?_, ?_, ?_⟩
  · intro hget
    simp [c, time_step, constControlInit, hget]
  · intro v i hget hobj hidx
    subst hidx
    refine ⟨setCell n element varName i v, ?_, setCell_cells_same n element varName i v⟩
    simp [c, time_step, constControlInit, hget, hobj, write_to_net,
      writeToSingleIndex]
  · intro vs l hget hobj hidx hnd hlen
    subst hidx
    refine ⟨(l.zip vs).foldl
      (fun n' pr => setCell n' element varName pr.1 (Value.scalar pr.2)) n, ?_,
      foldSetCell_get element varName l vs n hnd hlen⟩
    simp [c, time_step, constControlInit, hget, hobj, write_to_net, writeWithLoc,
      (by decide : ("loc" : String) ≠ "single_index"),
      (by decide : ("loc" : String) ≠ "all_index")]
  · intro v i hget hobj hidx
    subst hidx
    refine ⟨setObjAttr n element i (((varName.splitOn ".").get? 1).getD "") v, ?_,
      setObjAttr_same n element i _ v⟩
    simp [c, time_step, constControlInit, hget, hobj, write_to_net,
      writeToObjectAttribute,
      (by decide : ("object" : String) ≠ "single_index"),
      (by decide : ("object" : String) ≠ "all_index"),
      (by decide : ("object" : String) ≠ "loc")]
  · intro vs l hget hobj hidx hlen1 hnd hlen
    subst hidx
    refine ⟨(l.zip vs).foldl
      (fun n' pr => setObjAttr n' element pr.1
        (((varName.splitOn ".").get? 1).getD "") (Value.scalar pr.2)) n, ?_,
      foldSetObj_get element _ l vs n hnd hlen⟩
    simp [c, time_step, constControlInit, hget, hobj, write_to_net,
      writeToObjectAttribute, hlen1,
      (by decide : ("object" : String) ≠ "single_index"),
      (by decide : ("object" : String) ≠ "all_index"),
      (by decide : ("object" : String) ≠ "loc")]

/-- Witness for C6: a source returning 42 writes exactly 42 into the single
targeted cell. -/
theorem C6_source_round_trip_witness :
    ∃ n', (time_step (constControlInit "load" "p_mw" (Sum.inl 3) "prof"
        (some ⟨fun _ _ _ => some (Value.scalar 42)⟩) 1)
        { cells := fun _ _ _ => Value.scalar 0
          objAttrs := fun _ _ _ => Value.scalar 0 } 5).2 = Except.ok n' ∧
      n'.cells "load" "p_mw" 3 = Value.scalar 42 :=
  (C6_source_round_trip "load" "p_mw" (Sum.inl 3) "prof"
    ⟨fun _ _ _ => some (Value.scalar 42)⟩ 1
    { cells := fun _ _ _ => Value.scalar 0
      objAttrs := fun _ _ _ => Value.scalar 0 } 5).2.1
    (Value.scalar 42) 3 rfl (by decide) rfl

/-- Witness for C10: a concrete integer-index controller selects
`"single_index"` and its `write_to_net` succeeds. -/
theorem C10_strategy_total_witness :
    (constControlInit "load" "p_mw" (Sum.inl 0) "prof" none 1).write ≠ "all_index" ∧
    ∃ n', write_to_net (constControlInit "load" "p_mw" (Sum.inl 0) "prof" none 1)
      { cells := fun _ _ _ => Value.scalar 0
        objAttrs := fun _ _ _ => Value.scalar 0 } = Except.ok n' :=
  ⟨(C10_strategy_total "load" "p_mw" (Sum.inl 0) "prof" none 1
      { cells := fun _ _ _ => Value.scalar 0
        objAttrs := fun _ _ _ => Value.scalar 0 }).2.1,
   (C10_strategy_total "load" "p_mw" (Sum.inl 0) "prof" none 1
      { cells := fun _ _ _ => Value.scalar 0
        objAttrs := fun _ _ _ => Value.scalar 0 }).2.2⟩

end Pandapower
